import Mathlib

/-!
Verification development for the `iref` crate (IRI / IRI-reference handling).

The byte buffers of the Rust code (`Vec<u8>`, `&[u8]`) are modelled as
`List Nat`; `usize` arithmetic is modelled as `Nat` (all quantities involved
are small lengths and offsets, no wrap-around occurs in the source).
`Result<T, Error>` is modelled as `Except Error T`.  Functions of the crate
that mutate `self` are modelled as functions returning the new state
(together with the `Result` value when the original returns one).
-/

namespace Iref

/-- Error type of the crate: a single kind, `Invalid` (spec section 7:
"Single error kind, `Invalid`"). -/
inductive Error where
  | Invalid
deriving DecidableEq

/-- Bytes of a string literal, to write concrete test inputs readably. -/
def strBytes (s : String) : List Nat := s.data.map Char.toNat

/-- Model of `Vec::resize(n, 0)`: truncate to `n` elements, or extend with
zeros up to `n` elements. -/
def resize (l : List Nat) (n : Nat) : List Nat :=
  if n ≤ l.length then l.take n else l ++ List.replicate (n - l.length) 0

/-- Model of the forward copy loop of `replace` (shrink case) in
`src/lib.rs`: `for i in 0..n { buffer[d + i] = buffer[s + i] }`, reading from
the buffer as it is being mutated, in increasing index order.  Out-of-bounds
reads (which would panic in Rust) are modelled as reading `0`. -/
def copyFwd : List Nat → Nat → Nat → Nat → List Nat
  | buf, _, _, 0 => buf
  | buf, d, s, n+1 => copyFwd (buf.set d (buf.getD s 0)) (d+1) (s+1) n

/-- Model of the backward copy loop of `replace` (grow case) in
`src/lib.rs`: `for i in 0..n { buffer[d + n - i - 1] = buffer[s + n - i - 1] }`,
reading from the buffer as it is being mutated, in decreasing index order. -/
def copyBwd : List Nat → Nat → Nat → Nat → List Nat
  | buf, _, _, 0 => buf
  | buf, d, s, n+1 => copyBwd (buf.set (d+n) (buf.getD (s+n) 0)) d s n

/-- Model of the final overwrite loop of `replace` in `src/lib.rs`:
`for i in 0..content.len() { buffer[range.start + i] = content[i] }`. -/
def writeSeq : List Nat → Nat → List Nat → List Nat
  | buf, _, [] => buf
  | buf, p, c :: cs => writeSeq (buf.set p c) (p+1) cs

/-- Shallow embedding of `replace` from `src/lib.rs` (lines 213-244): replace
`buffer[rStart..rEnd]` by `content`, shifting the tail of the buffer in place.
The Rust `let` bindings (`range_len`, `tail_len`, `new_end`) are inlined; the
branch structure (`range_len != content.len()`, then shrink when
`range_len > content.len()` else grow) is kept. -/
def replace (buffer : List Nat) (rStart rEnd : Nat) (content : List Nat) : List Nat :=
  writeSeq
    (if rEnd - rStart = content.length then buffer
     else if content.length < rEnd - rStart then
       resize (copyFwd buffer (rStart + content.length) rEnd (buffer.length - rEnd))
         (rStart + content.length + (buffer.length - rEnd))
     else
       copyBwd (resize buffer (rStart + content.length + (buffer.length - rEnd)))
         (rStart + content.length) rEnd (buffer.length - rEnd))
    rStart content

/-- Naive allocate-and-copy reference implementation of range replacement,
written from the spec's words: the bytes before `range.start`, followed by
`content`, followed by the bytes originally after `range.end`. -/
def replaceNaive (buffer : List Nat) (rStart rEnd : Nat) (content : List Nat) : List Nat :=
  buffer.take rStart ++ content ++ buffer.drop rEnd

/-- ASCII letter byte. -/
def isAlpha (b : Nat) : Bool := decide (65 ≤ b ∧ b ≤ 90) || decide (97 ≤ b ∧ b ≤ 122)

/-- ASCII digit byte. -/
def isDigit (b : Nat) : Bool := decide (48 ≤ b ∧ b ≤ 57)

/-- ASCII hexadecimal digit byte. -/
def isHexDigit (b : Nat) : Bool :=
  isDigit b || decide (65 ≤ b ∧ b ≤ 70) || decide (97 ≤ b ∧ b ≤ 102)

/-- Modelled from the spec: `iunreserved` byte (RFC 3987): ALPHA / DIGIT /
"-" / "." / "_" / "~"; non-ASCII bytes (128 and above) model the `ucschar`
Unicode extension at byte level. -/
def isUnreserved (b : Nat) : Bool :=
  isAlpha b || isDigit b || decide (b = 45) || decide (b = 46) ||
    decide (b = 95) || decide (b = 126) || decide (128 ≤ b)

/-- RFC 3986 `sub-delims` byte. -/
def isSubDelim (b : Nat) : Bool :=
  decide (b = 33) || decide (b = 36) || decide (b = 38) || decide (b = 39) ||
    decide (b = 40) || decide (b = 41) || decide (b = 42) || decide (b = 43) ||
    decide (b = 44) || decide (b = 59) || decide (b = 61)

/-- Scheme byte after the leading ALPHA: ALPHA / DIGIT / "+" / "-" / ".". -/
def isSchemeByte (b : Nat) : Bool :=
  isAlpha b || isDigit b || decide (b = 43) || decide (b = 45) || decide (b = 46)

/-- `ipchar` byte (without the percent-triplet case, handled by the scanner). -/
def isPChar (b : Nat) : Bool :=
  isUnreserved b || isSubDelim b || decide (b = 58) || decide (b = 64)

/-- `iuserinfo` byte (without percent-triplets). -/
def isUserinfoByte (b : Nat) : Bool :=
  isUnreserved b || isSubDelim b || decide (b = 58)

/-- `ireg-name` byte (without percent-triplets). -/
def isRegNameByte (b : Nat) : Bool := isUnreserved b || isSubDelim b

/-- `iquery` byte (without percent-triplets): ipchar / "/" / "?".
Note the byte 35 (the "#" separator) is not a query byte. -/
def isQueryByte (b : Nat) : Bool := isPChar b || decide (b = 47) || decide (b = 63)

/-- `ifragment` byte (without percent-triplets): ipchar / "/" / "?". -/
def isFragmentByte (b : Nat) : Bool := isPChar b || decide (b = 47) || decide (b = 63)

/-- `ipath` byte (without percent-triplets): ipchar / "/". -/
def isPathByte (b : Nat) : Bool := isPChar b || decide (b = 47)

/-- Modelled from the spec (section 4.1): scanner for productions without
percent-triplets — length of the maximal run of bytes satisfying `p`. -/
def scanPlain (p : Nat → Bool) : List Nat → Nat
  | [] => 0
  | b :: rest => if p b then scanPlain p rest + 1 else 0

/-- Modelled from the spec (section 4.1): scanner for productions with
percent-triplets — length of the maximal run of bytes satisfying `p` or
forming a percent-triplet "%" HEXDIG HEXDIG; a "%" not followed by two hex
digits is invalid. -/
def scanPct (p : Nat → Bool) : List Nat → Except Error Nat
  | [] => .ok 0
  | b :: rest =>
    if b = 37 then
      match rest with
      | h1 :: h2 :: rest2 =>
        if isHexDigit h1 && isHexDigit h2 then
          match scanPct p rest2 with
          | .ok n => .ok (n+3)
          | .error e => .error e
        else .error .Invalid
      | _ => .error .Invalid
    else if p b then
      match scanPct p rest with
      | .ok n => .ok (n+1)
      | .error e => .error e
    else .ok 0

/-- Modelled from the spec: scheme scanner — a scheme is a leading ALPHA
followed by the maximal run of scheme bytes; anything else matches with
length 0 (the callers reject a zero-length or partial match). -/
def parse_scheme (s : List Nat) (start : Nat) : Except Error Nat :=
  match s.drop start with
  | [] => .ok 0
  | b :: rest => if isAlpha b then .ok (scanPlain isSchemeByte rest + 1) else .ok 0

/-- Modelled from the spec: path scanner (maximal run of ipath bytes). -/
def parse_path (s : List Nat) (start : Nat) : Except Error Nat :=
  scanPct isPathByte (s.drop start)

/-- Modelled from the spec: query scanner (maximal run of iquery bytes). -/
def parse_query (s : List Nat) (start : Nat) : Except Error Nat :=
  scanPct isQueryByte (s.drop start)

/-- Modelled from the spec: fragment scanner (maximal run of ifragment
bytes). -/
def parse_fragment (s : List Nat) (start : Nat) : Except Error Nat :=
  scanPct isFragmentByte (s.drop start)

/-- Modelled from the spec (section 4.4): path-segment scanner — a run of
ipchar bytes, optionally ending in a single "/" ("a `/` character is allowed
at the end of a segment"). -/
def parse_segment (s : List Nat) (start : Nat) : Except Error Nat :=
  match scanPct isPChar (s.drop start) with
  | .error e => .error e
  | .ok n => if s.drop (start + n) = [47] then .ok (n+1) else .ok n

/-- Modelled from the spec (section 3): the authority descriptor.  `offset`
is the byte offset of the authority inside the buffer (the bytes before it —
scheme, ":" and "//" when the authority is present — are accounted inside
`offset`).  `host_kind` is omitted: no claim depends on it.  An absent
authority is represented as in the spec: offset present, zero length, no
sub-spans. -/
structure ParsedAuthority where
  offset : Nat
  userinfo_len : Option Nat
  host_len : Nat
  port_len : Option Nat
deriving DecidableEq

/-- Length in bytes of the authority part: userinfo with its "@", host, and
port with its ":". -/
def ParsedAuthority.len (a : ParsedAuthority) : Nat :=
  (match a.userinfo_len with | some u => u + 1 | none => 0) + a.host_len +
    (match a.port_len with | some pl => pl + 1 | none => 0)

/-- Scan up to and including a closing bracket (byte 93), for IP-literals. -/
def scanToClose : List Nat → Except Error Nat
  | [] => .error .Invalid
  | 93 :: _ => .ok 1
  | _ :: rest =>
    match scanToClose rest with
    | .ok n => .ok (n+1)
    | .error e => .error e

/-- Modelled from the spec (section 4.1): userinfo detection — a run of
userinfo bytes of length `u` from `start` counts as userinfo only when
followed by a literal "@"; returns the optional userinfo length and the
host start position. -/
def uiSplit (s : List Nat) (start u : Nat) : Option Nat × Nat :=
  if s.getD (start + u) 0 = 64 then (some u, start + u + 1) else (none, start)

/-- Modelled from the spec (section 4.1): authority scanner.  It recognises
`[userinfo "@"] host [":" port]` from `start`: a run of userinfo bytes counts
as userinfo only when followed by "@"; a host is an IP-literal (bracketed)
when it starts with "[", otherwise the maximal run of reg-name bytes; a ":"
after the host introduces a digit-run port.  The returned descriptor has
`offset = start` and `len` equal to the number of bytes consumed. -/
def parse_authority (s : List Nat) (start : Nat) : Except Error ParsedAuthority :=
  match scanPct isUserinfoByte (s.drop start) with
  | .error e => .error e
  | .ok u =>
    match (if s.getD (uiSplit s start u).2 0 = 91 then
             match s.drop (uiSplit s start u).2 with
             | 91 :: rest =>
               match scanToClose rest with
               | .ok n => Except.ok (n+1)
               | .error e => Except.error e
             | _ => Except.error Error.Invalid
           else scanPct isRegNameByte (s.drop (uiSplit s start u).2)) with
    | .error e => .error e
    | .ok hlen =>
      if s.getD ((uiSplit s start u).2 + hlen) 0 = 58 then
        .ok { offset := start, userinfo_len := (uiSplit s start u).1,
              host_len := hlen,
              port_len := some (scanPlain isDigit
                (s.drop ((uiSplit s start u).2 + hlen + 1))) }
      else
        .ok { offset := start, userinfo_len := (uiSplit s start u).1,
              host_len := hlen, port_len := none }

/-- Length contributed by an optional component together with its separator
byte: `q + 1` when present, `0` when absent. -/
def optPart : Option Nat → Nat
  | some q => q + 1
  | none => 0

/-- Modelled from the spec (section 3): the component descriptor.  Offsets of
path, query and fragment are computed as running sums from the preceding
components. -/
structure ParsedIriRef where
  scheme_len : Option Nat
  authority : ParsedAuthority
  path_len : Nat
  query_len : Option Nat
  fragment_len : Option Nat
deriving DecidableEq

/-- Byte offset of the path. -/
def ParsedIriRef.path_offset (p : ParsedIriRef) : Nat :=
  p.authority.offset + p.authority.len

/-- Modelled from the spec: offset of the first query byte when the query is
present (so the "?" separator sits at `query_offset - 1`), and of the
insertion point for "?" when absent — matching the uses at lines 173-200 of
src/reference/buffer.rs. -/
def ParsedIriRef.query_offset (p : ParsedIriRef) : Nat :=
  p.path_offset + p.path_len + (match p.query_len with | some _ => 1 | none => 0)

/-- Modelled from the spec: offset of the first fragment byte when present
(so the "#" separator sits at `fragment_offset - 1`), and of the insertion
point for "#" when absent. -/
def ParsedIriRef.fragment_offset (p : ParsedIriRef) : Nat :=
  p.path_offset + p.path_len + optPart p.query_len
    + (match p.fragment_len with | some _ => 1 | none => 0)

/-- Modelled from the spec (section 3): total descriptor length — the sum of
all component lengths plus one separator byte for every present optional
component (the scheme with its ":" and the "//" of a present authority are
accounted inside `authority.offset`). -/
def ParsedIriRef.len (p : ParsedIriRef) : Nat :=
  p.path_offset + p.path_len + optPart p.query_len + optPart p.fragment_len

/-- Modelled from the spec (section 4.2): scheme detection — the scheme
candidate run of length `sl` counts as the scheme only when non-empty and
followed by a literal ":"; returns the optional scheme length and the
position where the hier-part starts. -/
def schemeSplit (s : List Nat) (sl : Nat) : Option Nat × Nat :=
  if 0 < sl ∧ s.getD sl 0 = 58 then (some sl, sl + 1) else (none, 0)

/-- Modelled from the spec (section 4.2): authority detection — the
authority is parsed only when the hier-part starts with "//" (the authority
then starts two bytes later); otherwise the authority descriptor is absent:
zero length, no sub-spans, offset at the hier-part start. -/
def authoritySplit (s : List Nat) (pos : Nat) : Except Error ParsedAuthority :=
  if s.getD pos 0 = 47 ∧ s.getD (pos + 1) 0 = 47 then
    parse_authority s (pos + 2)
  else
    .ok { offset := pos, userinfo_len := none, host_len := 0, port_len := none }

/-- Modelled from the spec (section 4.2): the optional query part — parsed
only after a literal "?"; `.ok none` when absent. -/
def querySplit (s : List Nat) (pos : Nat) : Except Error (Option Nat) :=
  if s.getD pos 0 = 63 then (parse_query s (pos + 1)).map some else .ok none

/-- Modelled from the spec (section 4.2): the optional fragment part —
parsed only after a literal "#"; `.ok none` when absent. -/
def fragmentSplit (s : List Nat) (pos : Nat) : Except Error (Option Nat) :=
  if s.getD pos 0 = 35 then (parse_fragment s (pos + 1)).map some else .ok none

/-- Modelled from the spec (section 4.2 Span Parser): consume
`[scheme ":"] hier-part ["?" query] ["#" fragment]` in one pass, producing
the full descriptor; all-or-nothing: fails unless the end position equals
the input length. -/
def ParsedIriRef.new (s : List Nat) : Except Error ParsedIriRef :=
  match parse_scheme s 0 with
  | .error e => .error e
  | .ok sl =>
    match authoritySplit s (schemeSplit s sl).2 with
    | .error e => .error e
    | .ok authority =>
      match parse_path s (authority.offset + authority.len) with
      | .error e => .error e
      | .ok path_len =>
        match querySplit s (authority.offset + authority.len + path_len) with
        | .error e => .error e
        | .ok query_len =>
          match fragmentSplit s
              (authority.offset + authority.len + path_len + optPart query_len) with
          | .error e => .error e
          | .ok fragment_len =>
            if authority.offset + authority.len + path_len + optPart query_len
                + optPart fragment_len = s.length then
              .ok { scheme_len := (schemeSplit s sl).1, authority := authority,
                    path_len := path_len, query_len := query_len,
                    fragment_len := fragment_len }
            else .error .Invalid

/-- Owned IRI reference from src/reference/buffer.rs: a descriptor plus the
byte buffer. -/
structure IriRefBuf where
  p : ParsedIriRef
  data : List Nat
deriving DecidableEq

/-- `IriRefBuf::new` (src/reference/buffer.rs lines 14-19): keep the input
bytes as the buffer and parse them into the descriptor. -/
def IriRefBuf.new (s : List Nat) : Except Error IriRefBuf :=
  match ParsedIriRef.new s with
  | .ok p => .ok { data := s, p := p }
  | .error e => .error e

/-- Length in bytes (src/reference/buffer.rs lines 28-31). -/
def IriRefBuf.len (b : IriRefBuf) : Nat := b.p.len

/-- `as_str` (src/reference/buffer.rs lines 33-37): the buffer bytes up to
`len`. -/
def IriRefBuf.as_str (b : IriRefBuf) : List Nat := b.data.take b.len

/-- Modelled from the spec (section 4.3): the descriptor fix-up performed by
the four-argument replace wrapper called at src/reference/buffer.rs lines
59-61 (its body is not under src): after the splice, every descriptor field
whose stored offset lies at or after `range.end` is adjusted by the length
delta; the only stored offset is `authority.offset`. -/
def fixupAuthority (a : ParsedAuthority) (rStart rEnd : Nat) (content : List Nat) :
    ParsedAuthority :=
  if rEnd ≤ a.offset then
    { a with offset := a.offset + content.length - (rEnd - rStart) }
  else a

/-- The replace method of IriRefBuf (src/reference/buffer.rs lines 59-61):
splice the buffer via `replace` from src/lib.rs and apply the descriptor
offset fix-up. -/
def IriRefBuf.replace (b : IriRefBuf) (rStart rEnd : Nat) (content : List Nat) :
    IriRefBuf :=
  { data := Iref.replace b.data rStart rEnd content,
    p := { b.p with authority := fixupAuthority b.p.authority rStart rEnd content } }

/-- `scheme` accessor (src/reference/buffer.rs lines 45-57): `Some` of the
scheme bytes only when `scheme_len` is present and positive, `None`
otherwise. -/
def IriRefBuf.scheme (b : IriRefBuf) : Option (List Nat) :=
  match b.p.scheme_len with
  | some scheme_len =>
    if 0 < scheme_len then some (b.data.take scheme_len) else none
  | none => none

/-- `query` accessor (src/reference/buffer.rs lines 158-171). -/
def IriRefBuf.query (b : IriRefBuf) : Option (List Nat) :=
  match b.p.query_len with
  | some len =>
    if 0 < len then some ((b.data.drop b.p.query_offset).take len) else none
  | none => none

/-- `fragment` accessor (src/reference/buffer.rs lines 206-219). -/
def IriRefBuf.fragment (b : IriRefBuf) : Option (List Nat) :=
  match b.p.fragment_len with
  | some len =>
    if 0 < len then some ((b.data.drop b.p.fragment_offset).take len) else none
  | none => none

/-- `path` accessor (src/reference/buffer.rs lines 133-138): the path byte
slice. -/
def IriRefBuf.path (b : IriRefBuf) : List Nat :=
  (b.data.drop b.p.path_offset).take b.p.path_len

/-- `set_raw_scheme` (src/reference/buffer.rs lines 67-92).  The pair holds
the returned `Result` and the state of `self` after the call. -/
def IriRefBuf.set_raw_scheme (b : IriRefBuf) (scheme : Option (List Nat)) :
    Except Error Unit × IriRefBuf :=
  match scheme with
  | none =>
    let b1 :=
      match b.p.scheme_len with
      | some scheme_len => b.replace 0 (scheme_len + 1) []
      | none => b
    (.ok (), { b1 with p := { b1.p with scheme_len := none } })
  | some new_scheme =>
    match parse_scheme new_scheme 0 with
    | .error e => (.error e, b)
    | .ok new_scheme_len =>
      if new_scheme_len = 0 ∨ new_scheme_len ≠ new_scheme.length then
        (.error .Invalid, b)
      else
        let b1 :=
          match b.p.scheme_len with
          | some scheme_len => b.replace 0 scheme_len new_scheme
          | none => (b.replace 0 0 [58]).replace 0 0 new_scheme
        (.ok (), { b1 with p := { b1.p with scheme_len := some new_scheme_len } })

/-- `set_authority` (src/reference/buffer.rs lines 120-131). -/
def IriRefBuf.set_authority (b : IriRefBuf) (authority : List Nat) :
    Except Error Unit × IriRefBuf :=
  match parse_authority authority 0 with
  | .error e => (.error e, b)
  | .ok new_parsed_authority =>
    if new_parsed_authority.len ≠ authority.length then (.error .Invalid, b)
    else
      let offset := b.p.authority.offset
      let b1 := b.replace offset (offset + b.p.authority.len) authority
      (.ok (), { b1 with p := { b1.p with
        authority := { new_parsed_authority with offset := offset } } })

/-- `set_path` (src/reference/buffer.rs lines 146-156). -/
def IriRefBuf.set_path (b : IriRefBuf) (path : List Nat) :
    Except Error Unit × IriRefBuf :=
  match parse_path path 0 with
  | .error e => (.error e, b)
  | .ok new_path_len =>
    if new_path_len ≠ path.length then (.error .Invalid, b)
    else
      let offset := b.p.path_offset
      let b1 := b.replace offset (offset + b.p.path_len) path
      (.ok (), { b1 with p := { b1.p with path_len := new_path_len } })

/-- `set_raw_query` (src/reference/buffer.rs lines 173-200): a `None` or
empty query removes the query together with its "?" separator. -/
def IriRefBuf.set_raw_query (b : IriRefBuf) (query : Option (List Nat)) :
    Except Error Unit × IriRefBuf :=
  let offset := b.p.query_offset
  if query = none ∨ query = some [] then
    let b1 :=
      match b.p.query_len with
      | some query_len => b.replace (offset - 1) (offset + query_len) []
      | none => b
    (.ok (), { b1 with p := { b1.p with query_len := none } })
  else
    let new_query := query.getD []
    match parse_query new_query 0 with
    | .error e => (.error e, b)
    | .ok new_query_len =>
      if new_query_len ≠ new_query.length then (.error .Invalid, b)
      else
        let b1 :=
          match b.p.query_len with
          | some query_len => b.replace offset (offset + query_len) new_query
          | none =>
            (b.replace offset offset [63]).replace (offset + 1) (offset + 1) new_query
        (.ok (), { b1 with p := { b1.p with query_len := some new_query_len } })

/-- `set_raw_fragment` (src/reference/buffer.rs lines 221-248): a `None` or
empty fragment removes the fragment together with its "#" separator. -/
def IriRefBuf.set_raw_fragment (b : IriRefBuf) (fragment : Option (List Nat)) :
    Except Error Unit × IriRefBuf :=
  let offset := b.p.fragment_offset
  if fragment = none ∨ fragment = some [] then
    let b1 :=
      match b.p.fragment_len with
      | some fragment_len => b.replace (offset - 1) (offset + fragment_len) []
      | none => b
    (.ok (), { b1 with p := { b1.p with fragment_len := none } })
  else
    let new_fragment := fragment.getD []
    match parse_fragment new_fragment 0 with
    | .error e => (.error e, b)
    | .ok new_fragment_len =>
      if new_fragment_len ≠ new_fragment.length then (.error .Invalid, b)
      else
        let b1 :=
          match b.p.fragment_len with
          | some fragment_len => b.replace offset (offset + fragment_len) new_fragment
          | none =>
            (b.replace offset offset [35]).replace (offset + 1) (offset + 1) new_fragment
        (.ok (), { b1 with p := { b1.p with fragment_len := some new_fragment_len } })

/-- `set_scheme` (src/reference/buffer.rs lines 98-100) delegates to
`set_raw_scheme`. -/
def IriRefBuf.set_scheme (b : IriRefBuf) (scheme : Option (List Nat)) :
    Except Error Unit × IriRefBuf := b.set_raw_scheme scheme

/-- `set_query` (src/reference/buffer.rs lines 202-204) delegates to
`set_raw_query`. -/
def IriRefBuf.set_query (b : IriRefBuf) (query : Option (List Nat)) :
    Except Error Unit × IriRefBuf := b.set_raw_query query

/-- `set_fragment` (src/reference/buffer.rs lines 250-252) delegates to
`set_raw_fragment`. -/
def IriRefBuf.set_fragment (b : IriRefBuf) (fragment : Option (List Nat)) :
    Except Error Unit × IriRefBuf := b.set_raw_fragment fragment

/-- Split a byte list on "/" (byte 47); like string splitting, the empty
list yields one empty segment and a trailing "/" yields a trailing empty
segment. -/
def splitSlash : List Nat → List (List Nat)
  | [] => [[]]
  | 47 :: rest => [] :: splitSlash rest
  | b :: rest =>
    match splitSlash rest with
    | seg :: segs => (b :: seg) :: segs
    | [] => [[b]]

/-- Join segments with "/" separators. -/
def joinSlash : List (List Nat) → List Nat
  | [] => []
  | [seg] => seg
  | seg :: segs => seg ++ 47 :: joinSlash segs

/-- Modelled from the spec (section 4.4): the dot-segment removal loop over
the segment sequence, maintaining an output stack: "." is discarded; ".."
pops the last output entry when the stack is non-empty, and otherwise —
errata 4547, for a relative path — the literal ".." is kept in the output
(for an absolute path it is discarded); any other segment is pushed
verbatim. -/
def rdsLoop (absolute : Bool) : List (List Nat) → List (List Nat) → List (List Nat)
  | acc, [] => acc
  | acc, seg :: rest =>
    if seg = [46] then rdsLoop absolute acc rest
    else if seg = [46, 46] then
      match acc with
      | [] =>
        if absolute then rdsLoop absolute [] rest
        else rdsLoop absolute [[46, 46]] rest
      | _ => rdsLoop absolute acc.dropLast rest
    else rdsLoop absolute (acc ++ [seg]) rest

/-- Modelled from the spec (section 4.4): dot-segment removal over a whole
path: an absolute path (leading "/") keeps its leading "/"; the remainder is
split into "/"-delimited segments, processed by the stack loop, and joined
back. -/
def remove_dot_segments (path : List Nat) : List Nat :=
  match path with
  | [] => []
  | 47 :: rest => 47 :: joinSlash (rdsLoop true [] (splitSlash rest))
  | _ => joinSlash (rdsLoop false [] (splitSlash path))

/-- Does the buffer carry a present authority?  Per the data model an absent
and an empty authority have the same zero-length descriptor; presence is
visible in the buffer as the "//" immediately before `authority.offset`. -/
def IriRefBuf.hasAuthority (b : IriRefBuf) : Bool :=
  decide (2 ≤ b.p.authority.offset) &&
    decide (b.data.getD (b.p.authority.offset - 2) 0 = 47) &&
    decide (b.data.getD (b.p.authority.offset - 1) 0 = 47)

/-- The authority byte slice. -/
def IriRefBuf.authorityBytes (b : IriRefBuf) : List Nat :=
  (b.data.drop b.p.authority.offset).take b.p.authority.len

/-- Raw scheme component by descriptor presence (used by resolution and
comparison, which work on the descriptor rather than the public accessor). -/
def IriRefBuf.schemeBytes (b : IriRefBuf) : Option (List Nat) :=
  match b.p.scheme_len with
  | some l => some (b.data.take l)
  | none => none

/-- Raw query component by descriptor presence. -/
def IriRefBuf.queryBytes (b : IriRefBuf) : Option (List Nat) :=
  match b.p.query_len with
  | some l => some ((b.data.drop b.p.query_offset).take l)
  | none => none

/-- Raw fragment component by descriptor presence. -/
def IriRefBuf.fragmentBytes (b : IriRefBuf) : Option (List Nat) :=
  match b.p.fragment_len with
  | some l => some ((b.data.drop b.p.fragment_offset).take l)
  | none => none

/-- The userinfo byte slice, when present. -/
def IriRefBuf.userinfoBytes (b : IriRefBuf) : Option (List Nat) :=
  match b.p.authority.userinfo_len with
  | some u => some ((b.data.drop b.p.authority.offset).take u)
  | none => none

/-- The host byte slice. -/
def IriRefBuf.hostBytes (b : IriRefBuf) : List Nat :=
  (b.data.drop (b.p.authority.offset +
    (match b.p.authority.userinfo_len with | some u => u + 1 | none => 0))).take
      b.p.authority.host_len

/-- The port byte slice, when present. -/
def IriRefBuf.portBytes (b : IriRefBuf) : Option (List Nat) :=
  match b.p.authority.port_len with
  | some pl =>
    some ((b.data.drop (b.p.authority.offset + b.p.authority.len - pl)).take pl)
  | none => none

/-- Modelled from the spec (section 4.5): merge of the base path and the
reference path — all of the base path up to and including its last "/",
followed by the reference path; when the base has an authority and an empty
path, "/" followed by the reference path. -/
def mergePaths (baseHasAuth : Bool) (basePath refPath : List Nat) : List Nat :=
  if baseHasAuth ∧ basePath = [] then 47 :: refPath
  else (basePath.reverse.dropWhile (fun b => decide (b ≠ 47))).reverse ++ refPath

/-- Serialize IRI components back to their textual form
`scheme ":" "//" authority path "?" query "#" fragment`. -/
def serializeComponents (scheme : Option (List Nat)) (authority : Option (List Nat))
    (path : List Nat) (query : Option (List Nat)) (fragment : Option (List Nat)) :
    List Nat :=
  (match scheme with | some sc => sc ++ [58] | none => []) ++
  (match authority with | some a => 47 :: 47 :: a | none => []) ++
  path ++
  (match query with | some q => 63 :: q | none => []) ++
  (match fragment with | some f => 35 :: f | none => [])

/-- Modelled from the spec (section 4.5): strict RFC 3986 section 5.3
reference resolution — compute the resolved components of `self` against
`base` and serialize them; the result fragment is always the reference's
own fragment. -/
def IriRefBuf.resolvedBytes (self base : IriRefBuf) : List Nat :=
  let baseAuth : Option (List Nat) :=
    if base.hasAuthority then some base.authorityBytes else none
  let selfAuth : Option (List Nat) :=
    if self.hasAuthority then some self.authorityBytes else none
  if self.p.scheme_len.isSome then
    serializeComponents self.schemeBytes selfAuth (remove_dot_segments self.path)
      self.queryBytes self.fragmentBytes
  else if self.hasAuthority then
    serializeComponents base.schemeBytes selfAuth (remove_dot_segments self.path)
      self.queryBytes self.fragmentBytes
  else if self.path = [] then
    serializeComponents base.schemeBytes baseAuth base.path
      (if self.p.query_len.isSome then self.queryBytes else base.queryBytes)
      self.fragmentBytes
  else if self.path.headD 0 = 47 then
    serializeComponents base.schemeBytes baseAuth (remove_dot_segments self.path)
      self.queryBytes self.fragmentBytes
  else
    serializeComponents base.schemeBytes baseAuth
      (remove_dot_segments (mergePaths base.hasAuthority base.path self.path))
      self.queryBytes self.fragmentBytes

/-- `resolved` (spec section 4.5): non-mutating resolution, producing a new
owned value; the descriptor of the result is recomputed by parsing the
resolved text (the spec leaves the exact splice sequence unspecified). -/
def IriRefBuf.resolved (self base : IriRefBuf) : Except Error IriRefBuf :=
  IriRefBuf.new (self.resolvedBytes base)

/-- `resolve` (spec section 4.5): in-place resolution, modelled functionally
as returning the mutated state — the resolved value (on the unreachable
re-parse failure the state is left unchanged). -/
def IriRefBuf.resolve (self base : IriRefBuf) : IriRefBuf :=
  match self.resolved base with
  | .ok b => b
  | .error _ => self

/-- Value of a hexadecimal digit byte. -/
def hexVal (b : Nat) : Nat :=
  if isDigit b then b - 48
  else if decide (65 ≤ b ∧ b ≤ 70) then b - 55
  else b - 87

/-- Modelled from the spec glossary: percent-decoding — each "%" HEXDIG
HEXDIG triplet is replaced by its decoded byte; all other bytes are kept. -/
def pctDecode : List Nat → List Nat
  | [] => []
  | 37 :: h1 :: h2 :: rest2 =>
    if isHexDigit h1 && isHexDigit h2 then
      (hexVal h1 * 16 + hexVal h2) :: pctDecode rest2
    else 37 :: pctDecode (h1 :: h2 :: rest2)
  | b :: rest => b :: pctDecode rest

/-- Percent-decoding-aware equality of optional components: `none` is never
equal to `some`. -/
def pctOptEq : Option (List Nat) → Option (List Nat) → Bool
  | none, none => true
  | some a, some b => decide (pctDecode a = pctDecode b)
  | _, _ => false

/-- Modelled from the spec (section 4.4): the normalized segment view of a
path — its absoluteness flag and the dot-segment-removed segment
sequence. -/
def normSegments (path : List Nat) : Bool × List (List Nat) :=
  match path with
  | [] => (false, [])
  | 47 :: rest => (true, rdsLoop true [] (splitSlash rest))
  | _ => (false, rdsLoop false [] (splitSlash path))

/-- Modelled from the spec (section 4.6) and the crate doc (src/lib.rs lines
167-198): the equivalence comparator — schemes byte-exact; authority
presence equal and sub-fields (userinfo, host, port) compared with
percent-decoding awareness, with no default-port substitution and no case
folding; paths compared as normalized segment sequences with
percent-decoding-aware segment equality (so every "/" counts); query and
fragment percent-decoding-aware with absence distinct from presence. -/
def equivalent (x y : IriRefBuf) : Bool :=
  decide (x.schemeBytes = y.schemeBytes) &&
  decide (x.hasAuthority = y.hasAuthority) &&
  pctOptEq x.userinfoBytes y.userinfoBytes &&
  decide (pctDecode x.hostBytes = pctDecode y.hostBytes) &&
  pctOptEq x.portBytes y.portBytes &&
  decide ((normSegments x.path).1 = (normSegments y.path).1) &&
  decide ((normSegments x.path).2.map pctDecode
    = (normSegments y.path).2.map pctDecode) &&
  pctOptEq x.queryBytes y.queryBytes &&
  pctOptEq x.fragmentBytes y.fragmentBytes

/-- Modelled from the spec (section 4.4): `push(segment)` on the path,
through the Buffer Mutator: validate the segment grammar; insert a "/"
before it when the path is non-empty and does not already end in "/";
append at the end of the path region and update `path_len`. -/
def IriRefBuf.pushSegment (b : IriRefBuf) (seg : List Nat) : Except Error IriRefBuf :=
  match parse_segment seg 0 with
  | .error e => .error e
  | .ok n =>
    if n ≠ seg.length then .error .Invalid
    else
      let po := b.p.path_offset
      let pl := b.p.path_len
      let ins := if pl ≠ 0 ∧ b.data.getD (po + pl - 1) 0 ≠ 47 then 47 :: seg else seg
      let b1 := b.replace (po + pl) (po + pl) ins
      .ok { b1 with p := { b1.p with path_len := pl + ins.length } }

/-- Modelled from the spec (section 4.4): `pop()` removes the last
"/"-delimited segment together with its separating "/" (when there is one),
through the Buffer Mutator; popping an empty path is a no-op. -/
def IriRefBuf.popSegment (b : IriRefBuf) : IriRefBuf :=
  let po := b.p.path_offset
  let pl := b.p.path_len
  if pl = 0 then b
  else
    let keepLen := (b.path.reverse.dropWhile (fun x => decide (x ≠ 47))).length - 1
    let b1 := b.replace (po + keepLen) (po + pl) []
    { b1 with p := { b1.p with path_len := keepLen } }

theorem length_copyFwd : ∀ (n : Nat) (buf : List Nat) (d s : Nat),
    (copyFwd buf d s n).length = buf.length := by
  intro n
  induction n with
  | zero => intro buf d s; rfl
  | succ n ih => intro buf d s; simp [copyFwd, ih]

theorem length_copyBwd : ∀ (n : Nat) (buf : List Nat) (d s : Nat),
    (copyBwd buf d s n).length = buf.length := by
  intro n
  induction n with
  | zero => intro buf d s; rfl
  | succ n ih => intro buf d s; simp [copyBwd, ih]

theorem length_writeSeq : ∀ (c : List Nat) (buf : List Nat) (p : Nat),
    (writeSeq buf p c).length = buf.length := by
  intro c
  induction c with
  | nil => intro buf p; rfl
  | cons a cs ih => intro buf p; simp [writeSeq, ih]

theorem take_succ_set : ∀ (buf : List Nat) (p a : Nat), p < buf.length →
    (buf.set p a).take (p+1) = buf.take p ++ [a]
  | [], _, _, h => by simp at h
  | b :: t, 0, a, _ => by simp
  | b :: t, p+1, a, h => by
    simp only [List.set_cons_succ, List.take_succ_cons, List.cons_append]
    exact congrArg _ (take_succ_set t p a (by simpa using h))

theorem take_set_of_le (buf : List Nat) (i j a : Nat) (h : j ≤ i) :
    (buf.set i a).take j = buf.take j := by
  rw [List.set_take, List.set_eq_of_length_le]
  simp only [List.length_take]
  omega

theorem getD_eq_getElem_of_lt (buf : List Nat) (i : Nat) (h : i < buf.length) :
    buf.getD i 0 = buf[i] := by
  rw [List.getD_eq_getElem?_getD, List.getElem?_eq_getElem h]
  rfl

theorem writeSeq_eq : ∀ (c : List Nat) (buf : List Nat) (p : Nat),
    p + c.length ≤ buf.length →
    writeSeq buf p c = buf.take p ++ c ++ buf.drop (p + c.length) := by
  intro c
  induction c with
  | nil => intro buf p h; simp [writeSeq]
  | cons a cs ih =>
    intro buf p h
    have hp : p < buf.length := by simp at h; omega
    rw [writeSeq, ih (buf.set p a) (p+1) (by simp at h ⊢; omega)]
    rw [take_succ_set buf p a hp]
    rw [List.drop_set_of_lt _ _ (by omega)]
    have harith : p + 1 + cs.length = p + (a :: cs).length := by simp; omega
    rw [harith]
    simp

theorem copyFwd_eq : ∀ (n : Nat) (buf : List Nat) (d s : Nat), d < s →
    s + n ≤ buf.length →
    copyFwd buf d s n = buf.take d ++ (buf.drop s).take n ++ buf.drop (d + n) := by
  intro n
  induction n with
  | zero => intro buf d s _ _; simp [copyFwd]
  | succ n ih =>
    intro buf d s hds hlen
    have hs : s < buf.length := by omega
    rw [copyFwd, ih (buf.set d (buf.getD s 0)) (d+1) (s+1) (by omega) (by simp; omega)]
    rw [getD_eq_getElem_of_lt buf s hs]
    rw [take_succ_set buf d buf[s] (by omega)]
    rw [List.drop_set_of_lt _ _ (by omega : d < s + 1)]
    rw [List.drop_set_of_lt _ _ (by omega : d < d + 1 + n)]
    rw [List.drop_eq_getElem_cons hs, List.take_succ_cons]
    have harith : d + 1 + n = d + (n + 1) := by omega
    rw [harith]
    simp

theorem copyBwd_eq : ∀ (n : Nat) (buf : List Nat) (d s : Nat), s < d →
    d + n ≤ buf.length →
    copyBwd buf d s n = buf.take d ++ (buf.drop s).take n ++ buf.drop (d + n) := by
  intro n
  induction n with
  | zero => intro buf d s _ _; simp [copyBwd]
  | succ n ih =>
    intro buf d s hds hlen
    have hsn : s + n < buf.length := by omega
    have hdn : d + n < buf.length := by omega
    rw [copyBwd, ih (buf.set (d+n) (buf.getD (s+n) 0)) d s hds (by simp; omega)]
    rw [getD_eq_getElem_of_lt buf (s+n) hsn]
    rw [take_set_of_le _ _ _ _ (by omega : d ≤ d + n)]
    have hdrop : (buf.set (d+n) buf[s+n]).drop s
        = (buf.drop s).set (d+n-s) buf[s+n] := by
      rw [List.drop_set]
      rw [if_neg (by omega)]
    rw [hdrop]
    rw [take_set_of_le _ _ _ _ (by omega : n ≤ d + n - s)]
    have hdrop2 : (buf.set (d+n) buf[s+n]).drop (d+n)
        = buf[s+n] :: buf.drop (d+n+1) := by
      rw [List.drop_set, if_neg (by omega), Nat.sub_self,
        List.drop_eq_getElem_cons hdn, List.set_cons_zero]
    rw [hdrop2]
    have htake : (buf.drop s).take (n+1)
        = (buf.drop s).take n ++ [buf[s+n]] := by
      have hn : n < (buf.drop s).length := by simp; omega
      rw [← List.take_concat_get _ _ hn, List.concat_eq_append]
      congr 2
      simp
    rw [htake]
    have harith : d + (n + 1) = d + n + 1 := by omega
    rw [harith]
    simp

theorem resize_of_le (l : List Nat) (n : Nat) (h : n ≤ l.length) :
    resize l n = l.take n := by
  simp [resize, h]

theorem resize_of_ge (l : List Nat) (n : Nat) (h : l.length ≤ n) :
    resize l n = l ++ List.replicate (n - l.length) 0 := by
  unfold resize
  split
  · have hn : n = l.length := by omega
    subst hn
    simp
  · rfl

theorem replace_eq_naive (buffer : List Nat) (rStart rEnd : Nat)
    (content : List Nat) (h1 : rStart ≤ rEnd) (h2 : rEnd ≤ buffer.length) :
    replace buffer rStart rEnd content = replaceNaive buffer rStart rEnd content := by
  unfold replace replaceNaive
  rcases Nat.lt_trichotomy content.length (rEnd - rStart) with hlt | heq | hgt
  · -- shrink case
    rw [if_neg (by omega), if_pos hlt]
    have hB : (buffer.drop rEnd).take (buffer.length - rEnd) = buffer.drop rEnd :=
      List.take_of_length_le (by simp)
    rw [copyFwd_eq (buffer.length - rEnd) buffer (rStart + content.length) rEnd
      (by omega) (by omega), hB]
    have hA : (buffer.take (rStart + content.length)).length
        = rStart + content.length := by simp; omega
    have hAB : (buffer.take (rStart + content.length) ++ buffer.drop rEnd).length
        = rStart + content.length + (buffer.length - rEnd) := by simp; omega
    rw [resize_of_le _ _ (by simp; omega)]
    rw [List.take_append_eq_append_take]
    rw [List.take_of_length_le (le_of_eq hAB), hAB, Nat.sub_self, List.take_zero,
      List.append_nil]
    rw [writeSeq_eq _ _ _ (by simp; omega)]
    rw [List.take_append_eq_append_take, hA,
      Nat.sub_eq_zero_of_le (by omega : rStart ≤ rStart + content.length),
      List.take_zero, List.append_nil, List.take_take,
      Nat.min_eq_left (by omega : rStart ≤ rStart + content.length)]
    rw [List.drop_append_eq_append_drop, hA,
      List.drop_of_length_le (le_of_eq hA), Nat.sub_self, List.drop_zero,
      List.nil_append]
  · -- equal length case
    rw [if_pos heq.symm]
    rw [writeSeq_eq _ _ _ (by omega)]
    have harith : rStart + content.length = rEnd := by omega
    rw [harith]
  · -- grow case
    rw [if_neg (by omega), if_neg (by omega)]
    have hk : buffer.length ≤ rStart + content.length + (buffer.length - rEnd) := by
      omega
    rw [resize_of_ge _ _ hk]
    rw [copyBwd_eq _ _ _ _ (by omega) (by simp; omega)]
    have hdropAll : (buffer ++ List.replicate
        (rStart + content.length + (buffer.length - rEnd) - buffer.length) 0).drop
          (rStart + content.length + (buffer.length - rEnd)) = [] :=
      List.drop_of_length_le (by simp; omega)
    rw [hdropAll, List.append_nil]
    have hA : ((buffer ++ List.replicate
        (rStart + content.length + (buffer.length - rEnd) - buffer.length) 0).take
          (rStart + content.length)).length = rStart + content.length := by
      simp; omega
    rw [writeSeq_eq _ _ _ (by simp; omega)]
    rw [List.take_append_eq_append_take, hA,
      Nat.sub_eq_zero_of_le (by omega : rStart ≤ rStart + content.length),
      List.take_zero, List.append_nil, List.take_take,
      Nat.min_eq_left (by omega : rStart ≤ rStart + content.length)]
    rw [List.take_append_eq_append_take,
      Nat.sub_eq_zero_of_le (by omega : rStart ≤ buffer.length),
      List.take_zero, List.append_nil]
    rw [List.drop_append_eq_append_drop, hA,
      List.drop_of_length_le (le_of_eq hA), Nat.sub_self, List.drop_zero,
      List.nil_append]
    rw [List.drop_append_eq_append_drop,
      Nat.sub_eq_zero_of_le (by omega : rEnd ≤ buffer.length), List.drop_zero]
    rw [List.take_append_eq_append_take]
    have hld : (buffer.drop rEnd).length = buffer.length - rEnd := by simp
    rw [List.take_of_length_le (le_of_eq hld), hld, Nat.sub_self, List.take_zero,
      List.append_nil]

/-- The scheme part length: scheme bytes plus the ":" separator when a
scheme is present. -/
def schemePartLen (pr : ParsedIriRef) : Nat := optPart pr.scheme_len

/-- Modelled from the spec (section 3): the descriptor/buffer consistency
invariant — the descriptor's total length equals the buffer length (this
places every component span within buffer bounds, since every span offset is
a running sum bounded by the total), together with the structural fact that
the scheme part lies before the stored authority offset. -/
def wf (b : IriRefBuf) : Prop :=
  b.p.len = b.data.length ∧ schemePartLen b.p ≤ b.p.authority.offset

instance (b : IriRefBuf) : Decidable (wf b) :=
  inferInstanceAs (Decidable (_ ∧ _))

theorem parse_authority_offset (s : List Nat) (start : Nat) (a : ParsedAuthority)
    (h : parse_authority s start = .ok a) : a.offset = start := by
  unfold parse_authority at h
  split at h
  · exact absurd h (by simp)
  · split at h
    · exact absurd h (by simp)
    · split at h <;>
        (simp only [Except.ok.injEq] at h; subst h; rfl)

theorem authoritySplit_offset (s : List Nat) (pos : Nat) (a : ParsedAuthority)
    (h : authoritySplit s pos = .ok a) : pos ≤ a.offset := by
  unfold authoritySplit at h
  split at h
  · rw [parse_authority_offset s (pos + 2) a h]
    omega
  · simp only [Except.ok.injEq] at h
    subst h
    simp

theorem schemeSplit_le (s : List Nat) (sl : Nat) :
    optPart (schemeSplit s sl).1 ≤ (schemeSplit s sl).2 := by
  unfold schemeSplit
  split <;> simp [optPart]

theorem parse_wf (s : List Nat) (pr : ParsedIriRef)
    (h : ParsedIriRef.new s = .ok pr) :
    pr.len = s.length ∧ schemePartLen pr ≤ pr.authority.offset := by
  unfold ParsedIriRef.new at h
  split at h
  · exact absurd h (by simp)
  next sl hsl =>
    split at h
    · exact absurd h (by simp)
    next authority hauth =>
      split at h
      · exact absurd h (by simp)
      next path_len hpath =>
        split at h
        · exact absurd h (by simp)
        next query_len hquery =>
          split at h
          · exact absurd h (by simp)
          next fragment_len hfrag =>
            split at h
            · simp only [Except.ok.injEq] at h
              subst h
              refine ⟨?_, ?_⟩
              · simp only [ParsedIriRef.len, ParsedIriRef.path_offset]
                omega
              · have h1 := schemeSplit_le s sl
                have h2 := authoritySplit_offset s (schemeSplit s sl).2 authority hauth
                simp only [schemePartLen]
                omega
            · exact absurd h (by simp)

/-- Buffers produced by a successful parse are well-formed and keep the
input bytes verbatim. -/
theorem IriRefBuf_new_wf (s : List Nat) (b : IriRefBuf)
    (h : IriRefBuf.new s = .ok b) : wf b ∧ b.data = s := by
  unfold IriRefBuf.new at h
  cases hp : ParsedIriRef.new s with
  | error e => rw [hp] at h; exact absurd h (by simp)
  | ok pr =>
    rw [hp] at h
    simp only [Except.ok.injEq] at h
    subst h
    exact ⟨⟨(parse_wf s pr hp).1, (parse_wf s pr hp).2⟩, rfl⟩

/-- A fallback extractor for concrete sample values. -/
def okOr (x : Except Error IriRefBuf) (d : IriRefBuf) : IriRefBuf :=
  match x with
  | .ok b => b
  | .error _ => d

/-- The empty IRI reference value. -/
def emptyBuf : IriRefBuf :=
  { p := { scheme_len := none,
           authority := { offset := 0, userinfo_len := none, host_len := 0,
                          port_len := none },
           path_len := 0, query_len := none, fragment_len := none },
    data := [] }

/-- A concrete parsed sample used by the witnesses. -/
def sampleBuf : IriRefBuf := okOr (IriRefBuf.new (strBytes "http://a/b?q#f")) emptyBuf

/-- Claim C1: for every byte buffer, every range with
`rStart ≤ rEnd ≤ buffer.length` and every content slice, `replace` from
src/lib.rs yields exactly the buffer of the naive allocate-and-copy
reference implementation: the bytes before the range start, followed by the
content, followed by the bytes originally after the range end — for
growing, shrinking and equal-length deltas alike. -/
theorem c1_replace_refines_naive (buffer : List Nat) (rStart rEnd : Nat)
    (content : List Nat) (h1 : rStart ≤ rEnd) (h2 : rEnd ≤ buffer.length) :
    replace buffer rStart rEnd content = replaceNaive buffer rStart rEnd content ∧
      replace buffer rStart rEnd content
        = buffer.take rStart ++ content ++ buffer.drop rEnd :=
  ⟨replace_eq_naive buffer rStart rEnd content h1 h2,
   replace_eq_naive buffer rStart rEnd content h1 h2⟩

theorem c1_replace_refines_naive_witness :
    (1 ≤ 3 ∧ 3 ≤ ([10, 20, 30, 40, 50] : List Nat).length) ∧
      replace [10, 20, 30, 40, 50] 1 3 [7, 8, 9]
        = replaceNaive [10, 20, 30, 40, 50] 1 3 [7, 8, 9] :=
  ⟨by decide,
    (c1_replace_refines_naive [10, 20, 30, 40, 50] 1 3 [7, 8, 9] (by decide)
      (by decide)).1⟩

/-- Claim C5: parsing never normalizes, re-encodes or changes bytes — a
successful parse serializes back (`as_str`) to exactly the input. -/
theorem c5_roundtrip (s : List Nat) (b : IriRefBuf)
    (h : IriRefBuf.new s = .ok b) : b.as_str = s := by
  obtain ⟨⟨hlen, _⟩, hdata⟩ := IriRefBuf_new_wf s b h
  rw [hdata] at hlen
  unfold IriRefBuf.as_str IriRefBuf.len
  rw [hdata, hlen, List.take_length]

theorem c5_roundtrip_witness :
    IriRefBuf.new (strBytes "http://a/b?q#f") = .ok sampleBuf ∧
      sampleBuf.as_str = strBytes "http://a/b?q#f" :=
  ⟨by rfl, c5_roundtrip (strBytes "http://a/b?q#f") sampleBuf (by rfl)⟩

theorem set_raw_scheme_atomic (b : IriRefBuf) (arg : Option (List Nat)) :
    (b.set_raw_scheme arg).snd = b ∨ (b.set_raw_scheme arg).fst = .ok () := by
  unfold IriRefBuf.set_raw_scheme
  dsimp only
  split
  all_goals repeat' split
  all_goals first
    | (left; rfl)
    | (right; rfl)

theorem set_authority_atomic (b : IriRefBuf) (au : List Nat) :
    (b.set_authority au).snd = b ∨ (b.set_authority au).fst = .ok () := by
  unfold IriRefBuf.set_authority
  dsimp only
  split
  all_goals repeat' split
  all_goals first
    | (left; rfl)
    | (right; rfl)

theorem set_path_atomic (b : IriRefBuf) (pa : List Nat) :
    (b.set_path pa).snd = b ∨ (b.set_path pa).fst = .ok () := by
  unfold IriRefBuf.set_path
  dsimp only
  split
  all_goals repeat' split
  all_goals first
    | (left; rfl)
    | (right; rfl)

theorem set_raw_query_atomic (b : IriRefBuf) (q : Option (List Nat)) :
    (b.set_raw_query q).snd = b ∨ (b.set_raw_query q).fst = .ok () := by
  unfold IriRefBuf.set_raw_query
  dsimp only
  split
  all_goals repeat' split
  all_goals first
    | (left; rfl)
    | (right; rfl)

theorem set_raw_fragment_atomic (b : IriRefBuf) (f : Option (List Nat)) :
    (b.set_raw_fragment f).snd = b ∨ (b.set_raw_fragment f).fst = .ok () := by
  unfold IriRefBuf.set_raw_fragment
  dsimp only
  split
  all_goals repeat' split
  all_goals first
    | (left; rfl)
    | (right; rfl)

/-- A scanner for a byte class excluding 35 cannot consume a whole input
containing the byte 35 ("#"): a full-length match implies no 35 occurs. -/
theorem scanPct_full (p : Nat → Bool) (hp : p 35 = false) :
    ∀ (k : Nat) (s : List Nat), s.length ≤ k →
      ∀ n, scanPct p s = .ok n → n = s.length → 35 ∉ s := by
  intro k
  induction k with
  | zero =>
    intro s hs n _ _
    have : s = [] := List.length_eq_zero.mp (by omega)
    subst this
    simp
  | succ k ih =>
    intro s hs n h hn
    cases s with
    | nil => simp
    | cons b rest =>
      rw [scanPct.eq_def] at h
      dsimp only at h
      by_cases hb : b = 37
      · rw [if_pos hb] at h
        cases rest with
        | nil => exact absurd h (by simp)
        | cons h1 rest1 =>
          cases rest1 with
          | nil => exact absurd h (by simp)
          | cons h2 rest2 =>
            simp only [List.length_cons] at hs hn
            dsimp only at h
            by_cases hhex : (isHexDigit h1 && isHexDigit h2) = true
            · rw [if_pos hhex] at h
              cases hscan : scanPct p rest2 with
              | error e => rw [hscan] at h; exact absurd h (by simp)
              | ok m =>
                rw [hscan] at h
                simp only [Except.ok.injEq] at h
                subst h
                have hm : m = rest2.length := by omega
                have hhex2 : isHexDigit h1 = true ∧ isHexDigit h2 = true := by
                  simpa using hhex
                have h35 : (35 : Nat) ∉ rest2 :=
                  ih rest2 (by omega) m hscan hm
                intro hmem
                simp only [List.mem_cons] at hmem
                rcases hmem with h35b | h35b | h35b | h35b
                · omega
                · rw [← h35b] at hhex2
                  exact absurd hhex2.1 (by decide)
                · rw [← h35b] at hhex2
                  exact absurd hhex2.2 (by decide)
                · exact h35 h35b
            · rw [if_neg hhex] at h
              exact absurd h (by simp)
      · rw [if_neg hb] at h
        by_cases hpb : p b = true
        · rw [if_pos hpb] at h
          cases hscan : scanPct p rest with
          | error e => rw [hscan] at h; exact absurd h (by simp)
          | ok m =>
            rw [hscan] at h
            simp only [Except.ok.injEq] at h
            subst h
            simp only [List.length_cons] at hn hs
            have hm : m = rest.length := by omega
            have h35 : (35 : Nat) ∉ rest :=
              ih rest (by omega) m hscan hm
            intro hmem
            simp only [List.mem_cons] at hmem
            rcases hmem with h35b | h35b
            · rw [← h35b] at hpb
              rw [hp] at hpb
              exact absurd hpb (by simp)
            · exact h35 h35b
        · rw [if_neg hpb] at h
          simp only [Except.ok.injEq] at h
          subst h
          simp at hn

/-- `set_raw_query` with content containing an unescaped "#" returns
`Invalid` and leaves the state unchanged. -/
theorem set_raw_query_hash (b : IriRefBuf) (content : List Nat)
    (h35 : 35 ∈ content) :
    b.set_raw_query (some content) = (.error .Invalid, b) := by
  have hne : content ≠ [] := by
    intro hc
    subst hc
    simp at h35
  unfold IriRefBuf.set_raw_query
  rw [if_neg (by simp [hne])]
  simp only [Option.getD_some]
  cases hq : parse_query content 0 with
  | error e =>
    cases e
    rfl
  | ok n =>
    have hn : n ≠ content.length := by
      intro hn
      have := scanPct_full isQueryByte (by decide) content.length
        (content.drop 0) (by simp) n (by rw [← hq]; rfl) (by simpa using hn)
      simp at this
      exact this h35
    dsimp only
    rw [if_pos hn]

/-- Claim C2: the five mutators are atomic — whenever a call does not return
`ok` the buffer and descriptor are unchanged; in particular `set_raw_query`
with content containing an unescaped "#" returns `Invalid` and changes
nothing. -/
theorem c2_mutator_atomicity (b : IriRefBuf) (sch : Option (List Nat))
    (au pa : List Nat) (q f : Option (List Nat)) (content : List Nat)
    (h35 : 35 ∈ content) :
    ((b.set_raw_scheme sch).snd = b ∨ (b.set_raw_scheme sch).fst = .ok ()) ∧
    ((b.set_authority au).snd = b ∨ (b.set_authority au).fst = .ok ()) ∧
    ((b.set_path pa).snd = b ∨ (b.set_path pa).fst = .ok ()) ∧
    ((b.set_raw_query q).snd = b ∨ (b.set_raw_query q).fst = .ok ()) ∧
    ((b.set_raw_fragment f).snd = b ∨ (b.set_raw_fragment f).fst = .ok ()) ∧
    b.set_raw_query (some content) = (.error .Invalid, b) :=
  ⟨set_raw_scheme_atomic b sch, set_authority_atomic b au, set_path_atomic b pa,
   set_raw_query_atomic b q, set_raw_fragment_atomic b f,
   set_raw_query_hash b content h35⟩

theorem c2_mutator_atomicity_witness :
    35 ∈ strBytes "x#y" ∧
      sampleBuf.set_raw_query (some (strBytes "x#y")) = (.error .Invalid, sampleBuf) :=
  ⟨by decide,
    (c2_mutator_atomicity sampleBuf none [] [] none none (strBytes "x#y")
      (by decide)).2.2.2.2.2⟩

/-- Claim C3 counterexample: parsing "p?" — the query separator followed by
zero content bytes — gives the present-but-empty descriptor entry
`query_len = some 0`, yet the accessor `query()` returns the absence marker
`none` instead of a present-but-empty value; the accessor therefore does not
distinguish the two cases. -/
theorem c3_counterexample :
    (IriRefBuf.new (strBytes "p?")).map (fun b => (b.p.query_len, b.query))
      = .ok (some 0, none) := by
  rfl

/-- Claim C3 amended: the optional-component accessors `scheme`, `query` and
`fragment` return the absence marker both when the component is absent and
when it is present but empty; present-but-empty is distinguished from absent
only in the descriptor (`some 0` versus `none`) — an accessor returns a
value exactly when its descriptor length is present and positive. -/
theorem c3_amended (b : IriRefBuf) :
    (b.scheme = none ↔ b.p.scheme_len = none ∨ b.p.scheme_len = some 0) ∧
    (b.query = none ↔ b.p.query_len = none ∨ b.p.query_len = some 0) ∧
    (b.fragment = none ↔ b.p.fragment_len = none ∨ b.p.fragment_len = some 0) := by
  refine ⟨?_, ?_, ?_⟩
  · unfold IriRefBuf.scheme
    cases h : b.p.scheme_len with
    | none => simp
    | some l =>
      dsimp only
      split <;> simp_all
      all_goals omega
  · unfold IriRefBuf.query
    cases h : b.p.query_len with
    | none => simp
    | some l =>
      dsimp only
      split <;> simp_all
      all_goals omega
  · unfold IriRefBuf.fragment
    cases h : b.p.fragment_len with
    | none => simp
    | some l =>
      dsimp only
      split <;> simp_all
      all_goals omega

/-- Claim C6: dot-segment removal applied to the relative path
"a/b/../../../" returns "../" — the errata-4547 behaviour that keeps a
literal ".." arriving at an empty output stack — and not the empty path. -/
theorem c6_errata_case :
    remove_dot_segments (strBytes "a/b/../../../") = strBytes "../" ∧
      remove_dot_segments (strBytes "a/b/../../../") ≠ [] := by
  constructor
  · rfl
  · decide

/-- Claim C7: resolving the reference "g;x=1/../y" against the base
"http://a/b/c/d;p?q" with the strict RFC 3986 section 5.3 algorithm produces
exactly "http://a/b/c/y", via both the non-mutating `resolved` and the
in-place `resolve`. -/
theorem c7_resolution :
    ((IriRefBuf.new (strBytes "http://a/b/c/d;p?q")).bind fun base =>
      (IriRefBuf.new (strBytes "g;x=1/../y")).map fun r =>
        (r.resolvedBytes base, (r.resolved base).map IriRefBuf.as_str,
          (r.resolve base).as_str))
      = .ok (strBytes "http://a/b/c/y", .ok (strBytes "http://a/b/c/y"),
          strBytes "http://a/b/c/y") := by
  rfl

/-- Claim C8: the equivalence comparator judges the spec's three example
pairs exactly: percent-triplets compare equal to their decoded bytes, no
default-port substitution, and trailing-slash differences are distinct. -/
theorem c8_equivalence_examples :
    ((IriRefBuf.new (strBytes "http://example.org")).bind fun a =>
     (IriRefBuf.new (strBytes "http://exa%6dple.org")).bind fun b =>
     (IriRefBuf.new (strBytes "http://example.org:80")).bind fun c =>
     (IriRefBuf.new (strBytes "/foo/bar")).bind fun d =>
     (IriRefBuf.new (strBytes "/foo/bar/")).map fun e =>
       (equivalent a b, equivalent a c, equivalent d e))
      = .ok (true, false, false) := by
  rfl

/-- Claim C9: starting from the parsed IRI "https://rust-lang.org/a/c",
`pop()` then `push("b")` then `push("c/")` yields the path "/a/b/c/": pop
removes the last segment with its separating "/", push inserts a "/" before
appending when the non-empty path does not already end in "/", and a pushed
segment may itself end in "/". -/
theorem c9_segment_editing :
    ((IriRefBuf.new (strBytes "https://rust-lang.org/a/c")).bind fun b =>
      (b.popSegment.pushSegment (strBytes "b")).bind fun b2 =>
      (b2.pushSegment (strBytes "c/")).map fun b3 => b3.path)
      = .ok (strBytes "/a/b/c/") := by
  rfl

/-- Claim C10: `set_query(Some(""))` succeeds and removes the query together
with its "?" separator, leaving exactly the same state as
`set_query(None)`; afterwards `query()` returns the absence marker.  The
same holds for the fragment. -/
theorem c10_empty_query_removal (b : IriRefBuf) :
    b.set_raw_query (some []) = b.set_raw_query none ∧
      (b.set_raw_query (some [])).fst = .ok () ∧
      (b.set_raw_query (some [])).snd.query = none ∧
      b.set_raw_fragment (some []) = b.set_raw_fragment none ∧
      (b.set_raw_fragment (some [])).fst = .ok () ∧
      (b.set_raw_fragment (some [])).snd.fragment = none := by
  refine ⟨?_, ?_, ?_, ?_, ?_, ?_⟩
  · unfold IriRefBuf.set_raw_query
    rw [if_pos (by simp), if_pos (by simp)]
  · unfold IriRefBuf.set_raw_query
    rw [if_pos (by simp)]
  · unfold IriRefBuf.set_raw_query
    rw [if_pos (by simp)]
    dsimp only
    split <;> rfl
  · unfold IriRefBuf.set_raw_fragment
    rw [if_pos (by simp), if_pos (by simp)]
  · unfold IriRefBuf.set_raw_fragment
    rw [if_pos (by simp)]
  · unfold IriRefBuf.set_raw_fragment
    rw [if_pos (by simp)]
    dsimp only
    split <;> rfl

theorem length_replace (data : List Nat) (rStart rEnd : Nat) (content : List Nat)
    (h1 : rStart ≤ rEnd) (h2 : rEnd ≤ data.length) :
    (replace data rStart rEnd content).length
      = rStart + content.length + (data.length - rEnd) := by
  rw [replace_eq_naive data rStart rEnd content h1 h2]
  unfold replaceNaive
  simp
  omega

theorem fixup_len (a : ParsedAuthority) (rStart rEnd : Nat) (content : List Nat) :
    (fixupAuthority a rStart rEnd content).len = a.len := by
  unfold fixupAuthority
  split <;> rfl

theorem fixup_offset (a : ParsedAuthority) (rStart rEnd : Nat) (content : List Nat) :
    (fixupAuthority a rStart rEnd content).offset
      = if rEnd ≤ a.offset then a.offset + content.length - (rEnd - rStart)
        else a.offset := by
  unfold fixupAuthority
  split <;> simp_all

theorem set_path_wf (b : IriRefBuf) (pa : List Nat) (hb : wf b)
    (hc : 0 < b.p.authority.len + b.p.path_len ∨ pa = []) :
    wf (b.set_path pa).snd := by
  obtain ⟨hlen, hsch⟩ := hb
  have hdlen : b.data.length = b.p.authority.offset + b.p.authority.len
      + b.p.path_len + optPart b.p.query_len + optPart b.p.fragment_len := by
    rw [← hlen]; rfl
  have hcl : 0 < b.p.authority.len + b.p.path_len ∨ pa.length = 0 := by
    rcases hc with h | h
    · exact Or.inl h
    · right; rw [h]; rfl
  simp only [schemePartLen] at hsch
  unfold IriRefBuf.set_path
  dsimp only
  split
  · exact ⟨hlen, by simpa [schemePartLen] using hsch⟩
  next n hn =>
    split
    · exact ⟨hlen, by simpa [schemePartLen] using hsch⟩
    next hne =>
      have hn2 : n = pa.length := by omega
      constructor
      · simp only [IriRefBuf.replace, ParsedIriRef.len, ParsedIriRef.path_offset,
          fixup_len, fixup_offset]
        rw [length_replace _ _ _ _ (by omega) (by omega)]
        split <;> omega
      · simp only [schemePartLen, IriRefBuf.replace, fixup_offset,
          ParsedIriRef.path_offset]
        split <;> omega

theorem len_set_offset (a : ParsedAuthority) (x : Nat) :
    ({ a with offset := x } : ParsedAuthority).len = a.len := rfl

theorem set_raw_scheme_wf (b : IriRefBuf) (arg : Option (List Nat)) (hb : wf b) :
    wf (b.set_raw_scheme arg).snd := by
  obtain ⟨hlen, hsch⟩ := hb
  have hdlen : b.data.length = b.p.authority.offset + b.p.authority.len
      + b.p.path_len + optPart b.p.query_len + optPart b.p.fragment_len := by
    rw [← hlen]; rfl
  simp only [schemePartLen] at hsch
  unfold IriRefBuf.set_raw_scheme
  dsimp only
  split
  · -- arg = none
    split
    next sl heq =>
      -- scheme present: remove it
      simp only [heq, optPart] at hsch
      constructor
      · simp only [IriRefBuf.replace, ParsedIriRef.len, ParsedIriRef.path_offset,
          fixup_len, fixup_offset]
        rw [length_replace _ _ _ _ (by omega) (by omega)]
        split <;> omega
      · simp [schemePartLen, optPart]
    next heq =>
      exact ⟨hlen, by simp [schemePartLen, optPart]⟩
  next ns =>
    split
    · exact ⟨hlen, by simpa [schemePartLen] using hsch⟩
    next n hp =>
      split
      · exact ⟨hlen, by simpa [schemePartLen] using hsch⟩
      next hok =>
        have hn : n = ns.length ∧ n ≠ 0 := by
          push_neg at hok
          exact ⟨hok.2, hok.1⟩
        split
        next sl heq =>
          simp only [heq, optPart] at hsch
          constructor
          · simp only [IriRefBuf.replace, ParsedIriRef.len, ParsedIriRef.path_offset,
              fixup_len, fixup_offset]
            rw [length_replace _ _ _ _ (by omega) (by omega)]
            split <;> omega
          · simp only [schemePartLen, optPart, IriRefBuf.replace, fixup_offset]
            split <;> omega
        next heq =>
          simp only [heq, optPart] at hsch
          constructor
          · simp only [IriRefBuf.replace, ParsedIriRef.len, ParsedIriRef.path_offset,
              fixup_len, fixup_offset, List.length_cons, List.length_nil]
            rw [length_replace _ _ _ _ (le_refl 0) (Nat.zero_le _),
              length_replace _ _ _ _ (le_refl 0) (Nat.zero_le _)]
            simp only [List.length_cons, List.length_nil]
            split
            · split <;> omega
            · split <;> omega
          · simp only [schemePartLen, optPart, IriRefBuf.replace, fixup_offset,
              List.length_cons, List.length_nil]
            split
            · split <;> omega
            · split <;> omega

theorem set_authority_wf (b : IriRefBuf) (au : List Nat) (hb : wf b) :
    wf (b.set_authority au).snd := by
  obtain ⟨hlen, hsch⟩ := hb
  have hdlen : b.data.length = b.p.authority.offset + b.p.authority.len
      + b.p.path_len + optPart b.p.query_len + optPart b.p.fragment_len := by
    rw [← hlen]; rfl
  simp only [schemePartLen] at hsch
  unfold IriRefBuf.set_authority
  dsimp only
  split
  · exact ⟨hlen, by simpa [schemePartLen] using hsch⟩
  next a hpa =>
    split
    · exact ⟨hlen, by simpa [schemePartLen] using hsch⟩
    next hne =>
      have ha : a.len = au.length := by omega
      constructor
      · simp only [IriRefBuf.replace, ParsedIriRef.len, ParsedIriRef.path_offset,
          len_set_offset]
        rw [length_replace _ _ _ _ (by omega) (by omega)]
        omega
      · simpa [schemePartLen] using hsch

theorem optPart_some (n : Nat) : optPart (some n) = n + 1 := rfl

theorem optPart_none : optPart none = 0 := rfl

theorem set_raw_query_wf (b : IriRefBuf) (q : Option (List Nat)) (hb : wf b)
    (hc : 0 < b.p.authority.len + b.p.path_len ∨ b.p.query_len ≠ none
      ∨ q = none ∨ q = some []) :
    wf (b.set_raw_query q).snd := by
  obtain ⟨hlen, hsch⟩ := hb
  have hdlen : b.data.length = b.p.authority.offset + b.p.authority.len
      + b.p.path_len + optPart b.p.query_len + optPart b.p.fragment_len := by
    rw [← hlen]; rfl
  simp only [schemePartLen] at hsch
  unfold IriRefBuf.set_raw_query
  dsimp only
  split
  · -- removal branch: q is none or empty
    split
    next ql heq =>
      simp only [heq, optPart_some, optPart_none] at hdlen
      constructor
      · simp only [IriRefBuf.replace, ParsedIriRef.len, ParsedIriRef.path_offset,
          ParsedIriRef.query_offset, heq, fixup_len, fixup_offset, optPart_some, optPart_none,
          List.length_nil]
        rw [length_replace _ _ _ _ (by omega) (by omega)]
        simp only [List.length_nil]
        split <;> omega
      · simp only [schemePartLen, IriRefBuf.replace, fixup_offset,
          ParsedIriRef.query_offset, ParsedIriRef.path_offset, heq,
          List.length_nil]
        split
        all_goals omega
    next heq =>
      simp only [heq, optPart_some, optPart_none] at hdlen
      constructor
      · simp only [ParsedIriRef.len, ParsedIriRef.path_offset, optPart_some, optPart_none]
        omega
      · simpa [schemePartLen] using hsch
  next hnot =>
    split
    · exact ⟨hlen, by simpa [schemePartLen] using hsch⟩
    next n hp =>
      split
      · exact ⟨hlen, by simpa [schemePartLen] using hsch⟩
      next hne =>
        have hn : n = (q.getD []).length := by omega
        split
        next ql heq =>
          simp only [heq, optPart_some, optPart_none] at hdlen
          constructor
          · simp only [IriRefBuf.replace, ParsedIriRef.len, ParsedIriRef.path_offset,
              ParsedIriRef.query_offset, heq, fixup_len, fixup_offset, optPart_some, optPart_none]
            rw [length_replace _ _ _ _ (by omega) (by omega)]
            split <;> omega
          · simp only [schemePartLen, IriRefBuf.replace, fixup_offset,
              ParsedIriRef.query_offset, ParsedIriRef.path_offset, heq]
            split
            all_goals omega
        next heq =>
          have hAP : 0 < b.p.authority.len + b.p.path_len := by
            rcases hc with h | h | h | h
            · exact h
            · exact absurd heq h
            · exact absurd (Or.inl h) hnot
            · exact absurd (Or.inr h) hnot
          simp only [heq, optPart_some, optPart_none] at hdlen
          constructor
          · simp only [IriRefBuf.replace, ParsedIriRef.len, ParsedIriRef.path_offset,
              ParsedIriRef.query_offset, heq, fixup_len, fixup_offset, optPart_some, optPart_none,
              List.length_cons, List.length_nil]
            rw [length_replace _ _ _ _ (le_refl _)
                (by rw [length_replace _ _ _ _ (le_refl _) (by omega)]; simp only [List.length_cons, List.length_nil]; omega),
              length_replace _ _ _ _ (le_refl _) (by omega)]
            simp only [List.length_cons, List.length_nil]
            split
            all_goals try split
            all_goals omega
          · simp only [schemePartLen, IriRefBuf.replace, fixup_offset,
              ParsedIriRef.query_offset, ParsedIriRef.path_offset, heq,
              List.length_cons, List.length_nil]
            split
            all_goals try split
            all_goals omega

theorem set_raw_fragment_wf (b : IriRefBuf) (f : Option (List Nat)) (hb : wf b)
    (hc : 0 < b.p.authority.len + b.p.path_len + optPart b.p.query_len
      ∨ b.p.fragment_len ≠ none ∨ f = none ∨ f = some []) :
    wf (b.set_raw_fragment f).snd := by
  obtain ⟨hlen, hsch⟩ := hb
  have hdlen : b.data.length = b.p.authority.offset + b.p.authority.len
      + b.p.path_len + optPart b.p.query_len + optPart b.p.fragment_len := by
    rw [← hlen]; rfl
  simp only [schemePartLen] at hsch
  unfold IriRefBuf.set_raw_fragment
  dsimp only
  split
  · -- removal branch: f is none or empty
    split
    next fl heq =>
      simp only [heq, optPart_some, optPart_none] at hdlen
      constructor
      · simp only [IriRefBuf.replace, ParsedIriRef.len, ParsedIriRef.path_offset,
          ParsedIriRef.fragment_offset, heq, fixup_len, fixup_offset, optPart_some, optPart_none,
          List.length_nil]
        rw [length_replace _ _ _ _ (by omega) (by omega)]
        simp only [List.length_nil]
        split <;> omega
      · simp only [schemePartLen, IriRefBuf.replace, fixup_offset,
          ParsedIriRef.fragment_offset, ParsedIriRef.path_offset, heq,
          List.length_nil]
        split
        all_goals omega
    next heq =>
      simp only [heq, optPart_some, optPart_none] at hdlen
      constructor
      · simp only [ParsedIriRef.len, ParsedIriRef.path_offset, optPart_some, optPart_none]
        omega
      · simpa [schemePartLen] using hsch
  next hnot =>
    split
    · exact ⟨hlen, by simpa [schemePartLen] using hsch⟩
    next n hp =>
      split
      · exact ⟨hlen, by simpa [schemePartLen] using hsch⟩
      next hne =>
        have hn : n = (f.getD []).length := by omega
        split
        next fl heq =>
          simp only [heq, optPart_some, optPart_none] at hdlen
          constructor
          · simp only [IriRefBuf.replace, ParsedIriRef.len, ParsedIriRef.path_offset,
              ParsedIriRef.fragment_offset, heq, fixup_len, fixup_offset, optPart_some, optPart_none]
            rw [length_replace _ _ _ _ (by omega) (by omega)]
            split <;> omega
          · simp only [schemePartLen, IriRefBuf.replace, fixup_offset,
              ParsedIriRef.fragment_offset, ParsedIriRef.path_offset, heq]
            split
            all_goals omega
        next heq =>
          have hAP : 0 < b.p.authority.len + b.p.path_len + optPart b.p.query_len := by
            rcases hc with h | h | h | h
            · exact h
            · exact absurd heq h
            · exact absurd (Or.inl h) hnot
            · exact absurd (Or.inr h) hnot
          simp only [heq, optPart_some, optPart_none] at hdlen
          constructor
          · simp only [IriRefBuf.replace, ParsedIriRef.len, ParsedIriRef.path_offset,
              ParsedIriRef.fragment_offset, heq, fixup_len, fixup_offset, optPart_some, optPart_none,
              List.length_cons, List.length_nil]
            rw [length_replace _ _ _ _ (le_refl _)
                (by rw [length_replace _ _ _ _ (le_refl _) (by omega)]; simp only [List.length_cons, List.length_nil]; omega),
              length_replace _ _ _ _ (le_refl _) (by omega)]
            simp only [List.length_cons, List.length_nil]
            split
            all_goals try split
            all_goals omega
          · simp only [schemePartLen, IriRefBuf.replace, fixup_offset,
              ParsedIriRef.fragment_offset, ParsedIriRef.path_offset, heq,
              List.length_cons, List.length_nil]
            split
            all_goals try split
            all_goals omega

/-- A concrete parsed descriptor used by the witnesses. -/
def sampleParsed : ParsedIriRef :=
  match ParsedIriRef.new (strBytes "p?") with
  | .ok pr => pr
  | .error _ => emptyBuf.p

/-- Claim C4 counterexample: parsing the empty reference succeeds and yields
a consistent state, but the subsequent successful `set_path("a")` call
leaves the descriptor with total length 2 while the buffer holds 1 byte:
the cascading offset fix-up of the Buffer Mutator (spec section 4.3 —
adjust every stored offset lying at or after `range.end` by the delta)
misadjusts the authority offset when the replaced range ends exactly at it,
breaking the length-consistency invariant after a successful mutator
call. -/
theorem c4_counterexample :
    (IriRefBuf.new []).map (fun b =>
      ((b.set_path (strBytes "a")).fst, (b.set_path (strBytes "a")).snd.p.len,
        (b.set_path (strBytes "a")).snd.data.length))
      = .ok (.ok (), 2, 1) := by
  rfl

/-- Claim C4 amended: the consistency invariant (descriptor total length
equals buffer length, hence all spans in bounds) is established by every
successful parse, and is preserved by every `set_scheme` and
`set_authority` call and by `set_path`, `set_query` and `set_fragment`
except in the degenerate situations where the replaced range ends at the
stored authority offset and the edit inserts new bytes — for `set_path`,
when authority and path are both empty and the new path is non-empty; for
`set_query` (resp. `set_fragment`), when everything between the authority
offset and the inserted separator is empty and the component was absent —
where the cascading offset fix-up misadjusts the stored authority
offset. -/
theorem c4_amended (b : IriRefBuf) (s pa au : List Nat) (pr : ParsedIriRef)
    (sch q f : Option (List Nat))
    (hb : wf b)
    (hparse : ParsedIriRef.new s = .ok pr)
    (hpa : 0 < b.p.authority.len + b.p.path_len ∨ pa = [])
    (hq : 0 < b.p.authority.len + b.p.path_len ∨ b.p.query_len ≠ none
      ∨ q = none ∨ q = some [])
    (hf : 0 < b.p.authority.len + b.p.path_len + optPart b.p.query_len
      ∨ b.p.fragment_len ≠ none ∨ f = none ∨ f = some []) :
    wf { p := pr, data := s } ∧
      wf (b.set_raw_scheme sch).snd ∧
      wf (b.set_authority au).snd ∧
      wf (b.set_path pa).snd ∧
      wf (b.set_raw_query q).snd ∧
      wf (b.set_raw_fragment f).snd :=
  ⟨⟨(parse_wf s pr hparse).1, (parse_wf s pr hparse).2⟩,
   set_raw_scheme_wf b sch hb, set_authority_wf b au hb,
   set_path_wf b pa hb hpa, set_raw_query_wf b q hb hq,
   set_raw_fragment_wf b f hb hf⟩

theorem c4_amended_witness :
    (wf sampleBuf ∧ ParsedIriRef.new (strBytes "p?") = .ok sampleParsed) ∧
      wf (sampleBuf.set_path (strBytes "c")).snd ∧
      wf (sampleBuf.set_raw_query (some (strBytes "z"))).snd :=
  ⟨⟨by decide, by rfl⟩,
   (c4_amended sampleBuf (strBytes "p?") (strBytes "c") (strBytes "h")
      sampleParsed (some (strBytes "x")) (some (strBytes "z")) none
      (by decide) (by rfl) (by decide) (by decide) (by decide)).2.2.2.1,
   (c4_amended sampleBuf (strBytes "p?") (strBytes "c") (strBytes "h")
      sampleParsed (some (strBytes "x")) (some (strBytes "z")) none
      (by decide) (by rfl) (by decide) (by decide) (by decide)).2.2.2.2.1⟩

end Iref
